import Mathlib

/-!
A shallow embedding of the go-sqlite3-locking benchmark harness (`main.go`,
both the on-disk and the in-memory variant, which share all the code that
matters here), together with proofs about it.

Conventions of the embedding:
* Go `int` values are modelled as `ℤ`; counters and list indices as `ℕ`.
* `rand.Intn n` is modelled by `intn n r` where `r : ℕ` is a draw from the
  uniform random source; `rand.Intn` panics on `n ≤ 0`, which is modelled
  by returning `none`.
* The database table `testData` is modelled as an association list from
  row id to row value; `db.Exec "UPDATE ..."` becomes `updateDB`.
* The work channel `workChan` together with the writer goroutines is
  modelled as a small transition system (`WState`, `stepW`): each enabled
  step lets one still-running writer either receive the value at the head
  of the queue (receiving the sentinel `-1` closes the channel, any other
  value is processed and logged in `processed`) or, when the queue is
  empty and closed, observe termination of its `range` loop and exit.
* The console output of `main` is modelled as a list of structured lines
  (`OutLine`), and its exit status as a natural number (`os.Exit(1)` vs
  falling off the end of `main`, which exits 0).
-/

/-- `WRITE_CODE` from main.go: mark emitted for a successful UPDATE. -/
def WRITE_CODE : String := "."

/-- `WRITE_RETRY_CODE` from main.go: mark emitted for a failed UPDATE attempt. -/
def WRITE_RETRY_CODE : String := "|"

/-- `SELECT_CODE` from main.go: mark emitted for a successful full scan. -/
def SELECT_CODE : String := "-"

/-- `SELECT_RETRY_CODE` from main.go: mark emitted for a failed scan attempt. -/
def SELECT_RETRY_CODE : String := "|"

/-- The four attempt outcomes of the observability stream. -/
inductive Mark where
  | writeSuccess
  | writeRetry
  | readSuccess
  | readRetry
deriving DecidableEq, Repr

/-- The character actually printed for each outcome (`fmt.Print` calls). -/
def markString : Mark → String
  | .writeSuccess => WRITE_CODE
  | .writeRetry => WRITE_RETRY_CODE
  | .readSuccess => SELECT_CODE
  | .readRetry => SELECT_RETRY_CODE

/-- Store errors as the spec's taxonomy sees them: a transient busy
condition versus any other error. The Go code receives both as a non-nil
`error` value. -/
inductive StoreErr where
  | busy
  | other
deriving DecidableEq, Repr

/-- What a worker can do after one store attempt: break out of the retry
loop with a success mark, continue retrying with a retry mark, or abort
the whole run (the last action exists in the spec's taxonomy; whether the
code ever takes it is what the theorems settle). -/
inductive AttemptAct where
  | succeedBreak
  | retryContinue
  | abortRun
deriving DecidableEq, Repr

/-- The writer's reaction to the result of `db.Exec("UPDATE ...")`
(main.go: `if err != nil { fmt.Print(WRITE_RETRY_CODE); continue } else
{ fmt.Print(WRITE_CODE); break }`). The error value is never inspected
beyond its non-nilness. -/
def writerAttemptAct : Option StoreErr → AttemptAct
  | none => .succeedBreak
  | some _ => .retryContinue

/-- The reader's reaction to the result of `db.Query("SELECT * FROM
testData")` (main.go: `if err != nil { fmt.Print(SELECT_RETRY_CODE) }
else { fmt.Print(SELECT_CODE); ...; break }`). -/
def readerAttemptAct : Option StoreErr → AttemptAct
  | none => .succeedBreak
  | some _ => .retryContinue

/-- The writer's inner retry loop on one work item, applied to the finite
list of store errors returned before the first success: one retry mark
per failed attempt, then one success mark. The loop never inspects which
kind of error occurred. -/
def writerAttemptLoop : List StoreErr → List Mark
  | [] => [Mark.writeSuccess]
  | _ :: rest => Mark.writeRetry :: writerAttemptLoop rest

/-- Model of Go's `rand.Intn n` fed with a draw `r` from the uniform
source: uniform on `[0, n)` for `n ≥ 1`, and a panic (modelled as `none`)
for `n ≤ 0`. -/
def intn (n : ℤ) (r : ℕ) : Option ℤ :=
  if n ≤ 0 then none else some ((r : ℤ) % n)

/-- `math.MaxUint32` converted to `int`, the bound passed to `rand.Intn`
by the work generator. -/
def MaxUint32 : ℤ := 4294967295

/-- A payload produced by the work generator:
`rand.Intn(int(math.MaxUint32))`, always defined since the bound is
positive. -/
def genPayload (r : ℕ) : ℤ := (r : ℤ) % MaxUint32

/-- The sentinel test a writer applies to each dequeued value
(main.go: `if val == -1`). -/
def isSentinel (v : ℤ) : Bool := v == -1

/-- The full list of payloads the generator enqueues for a run of
`numUpdates` updates, `seeds i` being the i-th draw from the random
source. -/
def genPayloads (seeds : ℕ → ℕ) (numUpdates : ℕ) : List ℤ :=
  (List.range numUpdates).map (fun i => genPayload (seeds i))

/-- The row id a writer updates for one work item:
`1 + rand.Intn(numRows)` (main.go UPDATE statement), `none` when
`rand.Intn` panics. -/
def writerTarget (numRows : ℤ) (r : ℕ) : Option ℤ :=
  (intn numRows r).map (fun x => 1 + x)

/-- The seeded table: `for i := 0; i <= numRows; i++ { INSERT (i, 0) }`,
i.e. ids `0 .. numRows` inclusive, every value 0. -/
def seedDB (numRows : ℕ) : List (ℤ × ℤ) :=
  (List.range (numRows + 1)).map (fun i : ℕ => ((i : ℤ), (0 : ℤ)))

/-- `UPDATE testData set value=val WHERE id=target`: every row whose id
equals the target gets the new value, every other row is untouched. -/
def updateDB (d : List (ℤ × ℤ)) (val target : ℤ) : List (ℤ × ℤ) :=
  d.map (fun p => if p.1 = target then (p.1, val) else p)

/-- The accumulated effect of a list of update operations
`(payload, target)` applied in order. -/
def applyUpdates : List (ℤ × ℤ) → List (ℤ × ℤ) → List (ℤ × ℤ)
  | d, [] => d
  | d, op :: rest => applyUpdates (updateDB d op.1 op.2) rest

/-- The writer-pool marks for one consumed work item whose update needed
`k` failed attempts before succeeding. -/
def writerMarks (k : ℕ) : List Mark :=
  List.replicate k Mark.writeRetry ++ [Mark.writeSuccess]

/-- The marks one writer emits for its whole list of consumed work items,
each item paired with its number of failed attempts. -/
def writerPoolMarks : List (ℤ × ℕ) → List Mark
  | [] => []
  | j :: rest => writerMarks j.2 ++ writerPoolMarks rest

/-- The number of write-success marks in a mark stream. -/
def successMarks (ms : List Mark) : ℕ := ms.count Mark.writeSuccess

/-- The two access modes of the `RWLocker` interface. -/
inductive LMode where
  | excl
  | shrd
deriving DecidableEq, Repr

/-- Events a worker generates at the locking layer and on the console. -/
inductive LockEv where
  | acq (m : LMode)
  | rel (m : LMode)
  | emit (m : Mark)
deriving DecidableEq, Repr

/-- The event trace of a writer processing one real work item whose
update fails `k` times before succeeding: `locker.Lock()`, then the
retry loop, then `locker.Unlock()` (main.go writer goroutine body). -/
def writerItemEvents (k : ℕ) : List LockEv :=
  LockEv.acq LMode.excl ::
    (List.replicate k (LockEv.emit Mark.writeRetry) ++
      [LockEv.emit Mark.writeSuccess, LockEv.rel LMode.excl])

/-- The event trace of a reader performing one scan whose query fails
`k` times before succeeding: `locker.RLock()`, then the retry loop,
then `locker.RUnlock()` (main.go reader goroutine body). -/
def readerScanEvents (k : ℕ) : List LockEv :=
  LockEv.acq LMode.shrd ::
    (List.replicate k (LockEv.emit Mark.readRetry) ++
      [LockEv.emit Mark.readSuccess, LockEv.rel LMode.shrd])

/-- State of the work queue and the writer pool: the values still
buffered in `workChan`, whether the channel has been closed, which
writers are still inside their `range workChan` loop, and the real work
items consumed so far (in consumption order). -/
structure WState where
  queue : List ℤ
  closed : Bool
  running : List Bool
  processed : List ℤ
deriving DecidableEq, Repr

/-- One step of writer `i`: if it is still running it receives the head
of the queue — the sentinel `-1` makes it `close(workChan)` and return,
a real value is processed (locked update with retries, which always
completes, see `writerItemEvents`) — and on an empty closed channel its
`range` loop ends and it returns. On an empty open channel it blocks. -/
def stepW (s : WState) (i : ℕ) : Option WState :=
  if s.running[i]? = some true then
    match s.queue with
    | [] =>
        if s.closed then
          some { queue := [], closed := s.closed, running := s.running.set i false,
                 processed := s.processed }
        else none
    | v :: rest =>
        if v = -1 then
          some { queue := rest, closed := true, running := s.running.set i false,
                 processed := s.processed }
        else
          some { queue := rest, closed := s.closed, running := s.running,
                 processed := s.processed ++ [v] }
  else none

/-- Some writer makes a step. -/
def StepR (s s' : WState) : Prop := ∃ i, stepW s i = some s'

/-- Reachability in the writer-pool transition system. -/
def Reach : WState → WState → Prop := Relation.ReflTransGen StepR

/-- All writers have returned. -/
def AllDone (s : WState) : Prop := ∀ b ∈ s.running, b = false

/-- Termination measure: buffered values plus running writers. -/
def meas (s : WState) : ℕ := s.queue.length + s.running.count true

/-- The initial state for a run: the generator's payloads followed by the
single sentinel, channel open, all `W` writers running, nothing
consumed. (The generator is its own goroutine, but since the sentinel is
the last value it sends and the channel is FIFO, the queue contents seen
by the writers are this sequence.) -/
def initW (items : List ℤ) (W : ℕ) : WState :=
  { queue := items ++ [-1], closed := false,
    running := List.replicate W true, processed := [] }

/-- Inductive invariant of the writer pool for a run over `items`:
while the channel is open the consumed items are a prefix of `items` and
the rest (followed by the sentinel) is still queued, and no writer has
exited; once it is closed everything has been consumed exactly once and
the queue is empty. -/
def GoodState (items : List ℤ) (W : ℕ) (s : WState) : Prop :=
  s.running.length = W ∧
  (s.closed = false →
    (∃ suf, items = s.processed ++ suf ∧ s.queue = suf ++ [-1]) ∧
    s.running = List.replicate W true) ∧
  (s.closed = true → s.processed = items ∧ s.queue = [])

/-- Structured console lines printed by `main` (the mark stream of the
worker goroutines is modelled separately by `Mark`/`LockEv`). -/
inductive OutLine where
  | legendHeader
  | legendRule
  | legendWrite (s : String)
  | legendWriteRetry (s : String)
  | legendRead (s : String)
  | legendReadRetry (s : String)
  | blank
  | running (msg : String)
  | invalidType (t : String)
  | errMsg (e : String)
  | duration
deriving DecidableEq, Repr

/-- The legend block printed once at the very start of `main`. -/
def legendLines : List OutLine :=
  [OutLine.legendHeader, OutLine.legendRule,
   OutLine.legendWrite WRITE_CODE, OutLine.legendWriteRetry WRITE_RETRY_CODE,
   OutLine.legendRead SELECT_CODE, OutLine.legendReadRetry SELECT_RETRY_CODE,
   OutLine.blank]

/-- The recognized `-type` flag values (the cases of `switch *testType`). -/
def validType (t : String) : Bool :=
  t == "none" || t == "mutex" || t == "rwmutex"

/-- The banner printed by each recognized switch case. -/
def runningMsg (t : String) : String :=
  if t == "none" then "Running no-mutex test"
  else if t == "mutex" then "Running sync.Mutex test"
  else "Running sync.RWMutex test"

/-- `main` after the WAL pragma: table creation, the `switch` on the
type flag, and the final error/duration report. `createErr` is the
outcome of the CREATE TABLE exec, `runErr` the error `runTest` would
return (its only error source is a failing seed INSERT). On a create
failure main prints and returns (exit 0); on an unrecognized type it
prints the invalid-type line, leaves `err` nil and therefore prints the
duration and exits 0; only a non-nil `runTest` error reaches
`os.Exit(1)`. -/
def mainAfterSetup (t : String) (createErr runErr : Option String) : ℕ × List OutLine :=
  match createErr with
  | some e => (0, legendLines ++ [OutLine.errMsg e])
  | none =>
      if validType t then
        match runErr with
        | some e => (1, legendLines ++ [OutLine.running (runningMsg t), OutLine.errMsg e])
        | none =>
            (0, legendLines ++ [OutLine.running (runningMsg t), OutLine.blank,
                                OutLine.blank, OutLine.duration])
      else
        (0, legendLines ++ [OutLine.invalidType t, OutLine.blank,
                            OutLine.blank, OutLine.duration])

/-- `main` of the on-disk variant: legend first, then (in WAL mode) the
journal-mode pragma whose failure prints the error and returns (exit 0),
then the rest. Returns the process exit status and the controller's
printed lines. -/
def mainRun (t : String) (walMode : Bool) (walErr createErr runErr : Option String) :
    ℕ × List OutLine :=
  if walMode then
    match walErr with
    | some e => (0, legendLines ++ [OutLine.errMsg e])
    | none => mainAfterSetup t createErr runErr
  else mainAfterSetup t createErr runErr

/-- C4 counterexample: a store error that is *not* a transient-busy
condition is treated exactly like a busy one — the writer (and reader)
retry loop continues, it does not abort the run; the code never
distinguishes the two kinds. -/
theorem nonbusy_error_retried_not_aborted :
    writerAttemptAct (some StoreErr.other) = AttemptAct.retryContinue ∧
    readerAttemptAct (some StoreErr.other) = AttemptAct.retryContinue ∧
    writerAttemptAct (some StoreErr.other) ≠ AttemptAct.abortRun ∧
    writerAttemptAct (some StoreErr.other) = writerAttemptAct (some StoreErr.busy) ∧
    writerAttemptLoop [StoreErr.other] = [Mark.writeRetry, Mark.writeSuccess] := by
  decide

/-- C4 (amended): every store error returned by an update or scan
attempt, busy or not, leads to a retry of the same operation; no error
kind is distinguished and none aborts the run — the retry loop emits one
retry mark per error and then a success mark. -/
theorem all_store_errors_retried :
    ∀ (errs : List StoreErr) (e : StoreErr),
      writerAttemptAct (some e) = AttemptAct.retryContinue ∧
      readerAttemptAct (some e) = AttemptAct.retryContinue ∧
      writerAttemptAct none = AttemptAct.succeedBreak ∧
      readerAttemptAct none = AttemptAct.succeedBreak ∧
      writerAttemptLoop errs = List.replicate errs.length Mark.writeRetry ++ [Mark.writeSuccess] := by
  intro errs e
  refine ⟨rfl, rfl, rfl, rfl, ?_⟩
  induction errs with
  | nil => rfl
  | cons x rest ih => simp [writerAttemptLoop, List.replicate_succ, ih]

/-- C10: the writer's random-target computation `1 + rand.Intn(numRows)`
is defined exactly when `numRows ≥ 1`; for `numRows ≤ 0` the `rand.Intn`
call panics (modelled as `none`), so processing any real work item
requires `numRows ≥ 1`. -/
theorem writer_target_defined_iff_numRows_pos :
    ∀ (numRows : ℤ) (r : ℕ),
      ((writerTarget numRows r).isSome = true ↔ 1 ≤ numRows) ∧
      (writerTarget numRows r = none ↔ numRows ≤ 0) := by
  intro n r
  unfold writerTarget intn
  split
  · simp; omega
  · simp; omega

/-- C9: every generated payload lies in `[0, 2^32-2]`, is never the
sentinel `-1`, and a writer dequeuing a generated payload never takes
the termination branch (the channel stays open). -/
theorem payload_never_sentinel :
    ∀ (r : ℕ) (rest : List ℤ) (run : List Bool) (pr : List ℤ) (i : ℕ) (s' : WState),
      0 ≤ genPayload r ∧ genPayload r ≤ 2 ^ 32 - 2 ∧
      isSentinel (genPayload r) = false ∧
      (stepW { queue := genPayload r :: rest, closed := false, running := run,
               processed := pr } i = some s' → s'.closed = false) := by
  intro r rest run pr i s'
  have h0 : 0 ≤ genPayload r ∧ genPayload r ≤ 2 ^ 32 - 2 := by
    simp only [genPayload, MaxUint32]
    omega
  refine ⟨h0.1, h0.2, ?_, ?_⟩
  · simp only [isSentinel, beq_eq_false_iff_ne, ne_eq]
    omega
  · intro hstep
    have hne : ¬ genPayload r = -1 := by omega
    simp only [stepW] at hstep
    rw [if_neg hne] at hstep
    split at hstep
    · cases hstep
      rfl
    · cases hstep

/-- C3: processing one work item (or one scan) with `k` failed attempts
acquires its lock mode exactly once and releases it exactly once, emits
one retry mark per failed attempt (for every `k`, i.e. with no retry
cutoff) followed by exactly one success mark, and every event between
the acquire and the release is a console mark — all retries happen
inside the same lock acquisition and the failure never propagates. -/
theorem retry_within_single_lock_acquisition :
    ∀ k : ℕ,
      ((writerItemEvents k).count (LockEv.acq LMode.excl) = 1 ∧
       (writerItemEvents k).count (LockEv.rel LMode.excl) = 1 ∧
       (writerItemEvents k).count (LockEv.emit Mark.writeRetry) = k ∧
       (writerItemEvents k).count (LockEv.emit Mark.writeSuccess) = 1 ∧
       ∃ mid, writerItemEvents k = LockEv.acq LMode.excl :: (mid ++ [LockEv.rel LMode.excl]) ∧
         ∀ e ∈ mid, ∃ m, e = LockEv.emit m) ∧
      ((readerScanEvents k).count (LockEv.acq LMode.shrd) = 1 ∧
       (readerScanEvents k).count (LockEv.rel LMode.shrd) = 1 ∧
       (readerScanEvents k).count (LockEv.emit Mark.readRetry) = k ∧
       (readerScanEvents k).count (LockEv.emit Mark.readSuccess) = 1 ∧
       ∃ mid, readerScanEvents k = LockEv.acq LMode.shrd :: (mid ++ [LockEv.rel LMode.shrd]) ∧
         ∀ e ∈ mid, ∃ m, e = LockEv.emit m) := by
  intro k
  constructor
  · refine ⟨?_, ?_, ?_, ?_, ?_⟩
    · simp [writerItemEvents, List.count_cons, List.count_append, List.count_replicate]
    · simp [writerItemEvents, List.count_cons, List.count_append, List.count_replicate]
    · simp [writerItemEvents, List.count_cons, List.count_append, List.count_replicate]
    · simp [writerItemEvents, List.count_cons, List.count_append, List.count_replicate]
    · refine ⟨List.replicate k (LockEv.emit Mark.writeRetry) ++ [LockEv.emit Mark.writeSuccess],
        ?_, ?_⟩
      · simp [writerItemEvents]
      · intro e he
        rcases List.mem_append.1 he with h | h
        · exact ⟨Mark.writeRetry, List.eq_of_mem_replicate h⟩
        · simp at h
          exact ⟨Mark.writeSuccess, h⟩
  · refine ⟨?_, ?_, ?_, ?_, ?_⟩
    · simp [readerScanEvents, List.count_cons, List.count_append, List.count_replicate]
    · simp [readerScanEvents, List.count_cons, List.count_append, List.count_replicate]
    · simp [readerScanEvents, List.count_cons, List.count_append, List.count_replicate]
    · simp [readerScanEvents, List.count_cons, List.count_append, List.count_replicate]
    · refine ⟨List.replicate k (LockEv.emit Mark.readRetry) ++ [LockEv.emit Mark.readSuccess],
        ?_, ?_⟩
      · simp [readerScanEvents]
      · intro e he
        rcases List.mem_append.1 he with h | h
        · exact ⟨Mark.readRetry, List.eq_of_mem_replicate h⟩
        · simp at h
          exact ⟨Mark.readSuccess, h⟩

/-- C3 witness at `k = 2`. -/
theorem retry_within_single_lock_acquisition_witness :
    (writerItemEvents 2).count (LockEv.acq LMode.excl) = 1 :=
  (retry_within_single_lock_acquisition 2).1.1

/-- C1 counterexample: with an unrecognized `-type` value (here "foo")
and an otherwise error-free run, `main` prints the invalid-type line,
leaves its error variable nil, prints a (zero) duration and exits with
code 0 — not with a non-zero code as the claim states. -/
theorem invalid_type_exits_zero :
    validType "foo" = false ∧
    (mainRun "foo" false none none none).1 = 0 ∧
    OutLine.invalidType "foo" ∈ (mainRun "foo" false none none none).2 ∧
    OutLine.duration ∈ (mainRun "foo" false none none none).2 := by
  refine ⟨by decide, rfl, ?_, ?_⟩ <;>
    simp [mainRun, mainAfterSetup, legendLines, validType]

/-- C1 (amended): the process exits 1 (printing the error) exactly when
setup passed, the `-type` value is recognized and `runTest` returned an
error (a failing seed INSERT); in every other case — success, but also
an unrecognized `-type` value (which still prints a duration) and a
WAL-pragma or CREATE TABLE failure (which print the error and return) —
it exits 0. A duration is printed exactly when the WAL pragma and CREATE
TABLE succeeded and either the type is unrecognized or `runTest`
returned no error. -/
theorem exit_code_characterization :
    ∀ (t : String) (walMode : Bool) (walErr createErr runErr : Option String),
      ((mainRun t walMode walErr createErr runErr).1 = 1 ↔
        ((walMode = false ∨ walErr = none) ∧ createErr = none ∧
          validType t = true ∧ runErr.isSome = true)) ∧
      (OutLine.duration ∈ (mainRun t walMode walErr createErr runErr).2 ↔
        ((walMode = false ∨ walErr = none) ∧ createErr = none ∧
          (validType t = false ∨ runErr = none))) ∧
      ((mainRun t walMode walErr createErr runErr).1 = 0 ∨
        (mainRun t walMode walErr createErr runErr).1 = 1) := by
  intro t wm we ce re
  cases wm <;> cases we <;> cases ce <;> cases re <;>
    by_cases hvt : validType t = true <;>
    simp_all [mainRun, mainAfterSetup, legendLines]

/-- C8 counterexample: the write-retry and read-retry marks are the same
character `"|"`, so the four attempt outcomes do not use four pairwise
distinct single-character marks. -/
theorem retry_marks_not_distinct :
    WRITE_RETRY_CODE = SELECT_RETRY_CODE ∧
    ¬ (WRITE_CODE ≠ WRITE_RETRY_CODE ∧ WRITE_CODE ≠ SELECT_CODE ∧
       WRITE_CODE ≠ SELECT_RETRY_CODE ∧ WRITE_RETRY_CODE ≠ SELECT_CODE ∧
       WRITE_RETRY_CODE ≠ SELECT_RETRY_CODE ∧ SELECT_CODE ≠ SELECT_RETRY_CODE) := by
  decide

/-- C8 (amended): each outcome's mark is a single character; the
write-success, read-success and retry marks are three distinct
characters, but write-retry and read-retry share the same mark `"|"`;
and for every configuration the legend block is printed exactly once,
at the very start of the output. -/
theorem legend_once_and_mark_characters :
    ∀ (t : String) (walMode : Bool) (walErr createErr runErr : Option String),
      WRITE_CODE.length = 1 ∧ WRITE_RETRY_CODE.length = 1 ∧
      SELECT_CODE.length = 1 ∧ SELECT_RETRY_CODE.length = 1 ∧
      (WRITE_CODE == SELECT_CODE) = false ∧
      (WRITE_CODE == WRITE_RETRY_CODE) = false ∧
      (SELECT_CODE == SELECT_RETRY_CODE) = false ∧
      WRITE_RETRY_CODE = SELECT_RETRY_CODE ∧
      (mainRun t walMode walErr createErr runErr).2.count OutLine.legendHeader = 1 ∧
      (∃ rest, (mainRun t walMode walErr createErr runErr).2 = legendLines ++ rest) := by
  intro t wm we ce re
  refine ⟨by decide, by decide, by decide, by decide, by decide, by decide, by decide,
    by decide, ?_, ?_⟩
  · cases wm <;> cases we <;> cases ce <;> cases re <;>
      by_cases hvt : validType t = true <;>
      simp_all [mainRun, mainAfterSetup, legendLines, List.count_append, List.count_cons]
  · cases wm <;> cases we <;> cases ce <;> cases re <;>
      by_cases hvt : validType t = true <;>
      simp_all [mainRun, mainAfterSetup]

/-- An UPDATE never changes the set (or order) of row ids. -/
lemma map_fst_updateDB (d : List (ℤ × ℤ)) (v t : ℤ) :
    (updateDB d v t).map Prod.fst = d.map Prod.fst := by
  induction d with
  | nil => rfl
  | cons p rest ih =>
      simp only [updateDB, List.map_cons] at *
      by_cases h : p.1 = t <;> simp [h, ih]

/-- A sequence of UPDATEs never changes the set (or order) of row ids. -/
lemma map_fst_applyUpdates (ops : List (ℤ × ℤ)) :
    ∀ d : List (ℤ × ℤ), (applyUpdates d ops).map Prod.fst = d.map Prod.fst := by
  induction ops with
  | nil => intro d; rfl
  | cons op rest ih =>
      intro d
      simp only [applyUpdates]
      rw [ih, map_fst_updateDB]

/-- Every value in the table after a sequence of UPDATEs is either a
value that was already present or the payload of one of the updates. -/
lemma val_applyUpdates (ops : List (ℤ × ℤ)) :
    ∀ (d : List (ℤ × ℤ)) (p : ℤ × ℤ), p ∈ applyUpdates d ops →
      (∃ q ∈ d, p.2 = q.2) ∨ p.2 ∈ ops.map Prod.fst := by
  induction ops with
  | nil =>
      intro d p hp
      exact Or.inl ⟨p, hp, rfl⟩
  | cons op rest ih =>
      intro d p hp
      rcases ih (updateDB d op.1 op.2) p hp with ⟨q, hq, hv⟩ | h
      · rcases List.mem_map.1 hq with ⟨q', hq', rfl⟩
        by_cases ht : q'.1 = op.2
        · right
          simp only [ht, if_pos rfl] at hv
          simp [hv]
        · left
          exact ⟨q', hq', by simpa [ht] using hv⟩
      · right
        simp [h]

/-- An UPDATE targeting id `t` leaves the value at any other id alone. -/
lemma lookup_updateDB_ne (d : List (ℤ × ℤ)) (v t x : ℤ) (hxt : x ≠ t) :
    (updateDB d v t).lookup x = d.lookup x := by
  induction d with
  | nil => rfl
  | cons p rest ih =>
      have hcons : updateDB (p :: rest) v t
          = (if p.1 = t then (p.1, v) else p) :: updateDB rest v t := rfl
      rw [hcons]
      by_cases h : p.1 = t
      · rw [if_pos h]
        have hxk : (x == p.1) = false := beq_eq_false_iff_ne.2 (by omega)
        simp only [List.lookup, hxk]
        exact ih
      · rw [if_neg h]
        cases hx : (x == p.1) <;> simp [List.lookup, hx, ih]

/-- The seeded table holds value 0 at id 0. -/
lemma lookup_zero_seedDB (numRows : ℕ) : (seedDB numRows).lookup 0 = some 0 := by
  simp [seedDB, List.range_succ_eq_map, List.lookup]

/-- A sequence of UPDATEs whose targets are all ≥ 1 leaves the value at
id 0 alone. -/
lemma lookup_zero_applyUpdates (ops : List (ℤ × ℤ)) :
    ∀ d : List (ℤ × ℤ), (∀ op ∈ ops, 1 ≤ op.2) → d.lookup 0 = some 0 →
      (applyUpdates d ops).lookup 0 = some 0 := by
  induction ops with
  | nil =>
      intro d _ h0
      exact h0
  | cons op rest ih =>
      intro d hops h0
      simp only [applyUpdates]
      refine ih _ (fun o ho => hops o (by simp [ho])) ?_
      rw [lookup_updateDB_ne]
      · exact h0
      · have := hops op (by simp)
        omega

/-- C6: after seeding and any sequence of update operations
`(payload, target)`, exactly `numRows + 1` records exist, their ids are
`0 .. numRows`, every seeded value is 0, and every final value is either
the seed value 0 or one of the update payloads. -/
theorem final_records_values_from_payloads_or_seed :
    ∀ (numRows : ℕ) (ops : List (ℤ × ℤ)),
      (applyUpdates (seedDB numRows) ops).length = numRows + 1 ∧
      (applyUpdates (seedDB numRows) ops).map Prod.fst
        = (List.range (numRows + 1)).map (fun i : ℕ => (i : ℤ)) ∧
      (∀ p, p ∈ seedDB numRows → p.2 = 0) ∧
      (∀ p, p ∈ applyUpdates (seedDB numRows) ops →
        p.2 = 0 ∨ p.2 ∈ ops.map Prod.fst) := by
  intro nR ops
  have hfst := map_fst_applyUpdates ops (seedDB nR)
  have hseedfst : (seedDB nR).map Prod.fst
      = (List.range (nR + 1)).map (fun i : ℕ => (i : ℤ)) := by
    simp only [seedDB, List.map_map]
    rfl
  refine ⟨?_, hfst.trans hseedfst, ?_, ?_⟩
  · have hlen : (applyUpdates (seedDB nR) ops).length
        = ((applyUpdates (seedDB nR) ops).map Prod.fst).length :=
      (List.length_map _ _).symm
    rw [hlen, hfst.trans hseedfst, List.length_map, List.length_range]
  · intro p hp
    rcases List.mem_map.1 hp with ⟨i, _, rfl⟩
    rfl
  · intro p hp
    rcases val_applyUpdates ops _ p hp with ⟨q, hq, hv⟩ | h
    · left
      rcases List.mem_map.1 hq with ⟨i, _, rfl⟩
      simpa using hv
    · right
      exact h

/-- C6 witness at `numRows = 1` with a single update `(7, 1)`. -/
theorem final_records_values_from_payloads_or_seed_witness :
    (applyUpdates (seedDB 1) [((7 : ℤ), (1 : ℤ))]).length = 1 + 1 :=
  (final_records_values_from_payloads_or_seed 1 [((7 : ℤ), (1 : ℤ))]).1

/-- C7: for `numRows ≥ 1`, the writer's update target `1 + rand.Intn(numRows)`
(applied to a uniform draw) always lies in `[1, numRows]`, the map from
draw residues `[0, numRows)` onto targets `[1, numRows]` is a bijection
(so a uniform source yields a uniform target), the target is never id 0,
an UPDATE leaves every record with a different id unchanged (both as a
row and under lookup), and consequently after any run of updates with
targets ≥ 1 the record with id 0 still holds its seed value 0. -/
theorem update_target_range_and_frame :
    ∀ numRows : ℕ, 1 ≤ numRows →
      (∀ r : ℕ, ∃ t, writerTarget (numRows : ℤ) r = some t ∧ 1 ≤ t ∧ t ≤ (numRows : ℤ)) ∧
      (∀ t : ℤ, 1 ≤ t → t ≤ (numRows : ℤ) → ∃ r : ℕ, writerTarget (numRows : ℤ) r = some t) ∧
      (∀ r₁ r₂ : ℕ, r₁ < numRows → r₂ < numRows →
        writerTarget (numRows : ℤ) r₁ = writerTarget (numRows : ℤ) r₂ → r₁ = r₂) ∧
      (∀ (r : ℕ) (t : ℤ), writerTarget (numRows : ℤ) r = some t → t ≠ 0) ∧
      (∀ (d : List (ℤ × ℤ)) (v t : ℤ) (p : ℤ × ℤ), p ∈ d → p.1 ≠ t → p ∈ updateDB d v t) ∧
      (∀ (d : List (ℤ × ℤ)) (v t x : ℤ), x ≠ t → (updateDB d v t).lookup x = d.lookup x) ∧
      (∀ ops : List (ℤ × ℤ), (∀ op ∈ ops, 1 ≤ op.2) →
        (applyUpdates (seedDB numRows) ops).lookup 0 = some 0) := by
  intro nR hnR
  have hpos : (0 : ℤ) < (nR : ℤ) := by exact_mod_cast hnR
  have hne0 : (nR : ℤ) ≠ 0 := by omega
  have hnle : ¬ (nR : ℤ) ≤ 0 := by omega
  refine ⟨?_, ?_, ?_, ?_, ?_, ?_, ?_⟩
  · intro r
    refine ⟨1 + (r : ℤ) % (nR : ℤ), ?_, ?_, ?_⟩
    · simp [writerTarget, intn, hnle]
    · have := Int.emod_nonneg (r : ℤ) hne0
      omega
    · have := Int.emod_lt_of_pos (r : ℤ) hpos
      omega
  · intro t ht1 ht2
    refine ⟨(t - 1).toNat, ?_⟩
    have htn : (((t - 1).toNat : ℤ)) = t - 1 := Int.toNat_of_nonneg (by omega)
    simp only [writerTarget, intn, if_neg hnle, Option.map_some', htn]
    rw [Int.emod_eq_of_lt (by omega) (by omega)]
    congr 1
    omega
  · intro r₁ r₂ h1 h2 heq
    have c1 : ((r₁ : ℤ)) < (nR : ℤ) := by exact_mod_cast h1
    have c2 : ((r₂ : ℤ)) < (nR : ℤ) := by exact_mod_cast h2
    simp only [writerTarget, intn, if_neg hnle, Option.map_some', Option.some.injEq] at heq
    rw [Int.emod_eq_of_lt (by omega) c1, Int.emod_eq_of_lt (by omega) c2] at heq
    omega
  · intro r t hrt
    simp only [writerTarget, intn, if_neg hnle, Option.map_some', Option.some.injEq] at hrt
    have := Int.emod_nonneg (r : ℤ) hne0
    omega
  · intro d v t p hp hne
    exact List.mem_map.2 ⟨p, hp, by simp [hne]⟩
  · intro d v t x hx
    exact lookup_updateDB_ne d v t x hx
  · intro ops hops
    exact lookup_zero_applyUpdates ops _ hops (lookup_zero_seedDB nR)

/-- C7 witness at `numRows = 3`, first draw 0. -/
theorem update_target_range_and_frame_witness :
    ∃ t, writerTarget (((3 : ℕ) : ℤ)) 0 = some t ∧ 1 ≤ t ∧ t ≤ (((3 : ℕ) : ℤ)) :=
  (update_target_range_and_frame 3 (by decide)).1 0

/-- Setting a `true` entry to `false` strictly decreases the number of
`true` entries. -/
lemma count_true_set_false :
    ∀ (l : List Bool) (i : ℕ), l[i]? = some true →
      (l.set i false).count true < l.count true := by
  intro l
  induction l with
  | nil =>
      intro i h
      simp at h
  | cons b rest ih =>
      intro i h
      cases i with
      | zero =>
          simp at h
          subst h
          simp [List.count_cons]
      | succ n =>
          simp at h
          have := ih n h
          cases b <;> simp [List.count_cons] <;> omega

/-- The initial state satisfies the writer-pool invariant. -/
lemma good_init (items : List ℤ) (W : ℕ) : GoodState items W (initW items W) := by
  refine ⟨by simp [initW], ?_, ?_⟩
  · intro _
    exact ⟨⟨items, by simp [initW], by simp [initW]⟩, by simp [initW]⟩
  · intro h
    simp [initW] at h

/-- `stepW` for a blocked or exited writer. -/
lemma stepW_not_running (s : WState) (i : ℕ) (h : ¬ s.running[i]? = some true) :
    stepW s i = none := by
  unfold stepW
  rw [if_neg h]

/-- `stepW` for a running writer facing an empty queue. -/
lemma stepW_run_nil (c : Bool) (run : List Bool) (pr : List ℤ) (i : ℕ)
    (h : run[i]? = some true) :
    stepW { queue := [], closed := c, running := run, processed := pr } i =
      (if c then
        some { queue := ([] : List ℤ), closed := c, running := run.set i false,
               processed := pr }
      else none) := by
  unfold stepW
  rw [if_pos h]

/-- `stepW` for a running writer receiving the value at the queue head. -/
lemma stepW_run_cons (v : ℤ) (rest : List ℤ) (c : Bool) (run : List Bool) (pr : List ℤ)
    (i : ℕ) (h : run[i]? = some true) :
    stepW { queue := v :: rest, closed := c, running := run, processed := pr } i =
      (if v = -1 then
        some { queue := rest, closed := true, running := run.set i false, processed := pr }
      else
        some { queue := rest, closed := c, running := run, processed := pr ++ [v] }) := by
  unfold stepW
  rw [if_pos h]

/-- The writer-pool invariant is preserved by every step, given that the
sentinel does not occur among the real work items. -/
lemma good_step (items : List ℤ) (W : ℕ) (s s' : WState) (i : ℕ)
    (hs : (-1 : ℤ) ∉ items) (hg : GoodState items W s) (h : stepW s i = some s') :
    GoodState items W s' := by
  obtain ⟨q, c, run, pr⟩ := s
  obtain ⟨hlen, hopen, hclosed⟩ := hg
  simp only at hlen hopen hclosed
  by_cases hrun : run[i]? = some true
  · cases q with
    | nil =>
        rw [stepW_run_nil c run pr i hrun] at h
        cases c
        · simp at h
        · rw [if_pos rfl] at h
          cases h
          obtain ⟨hpr, -⟩ := hclosed rfl
          refine ⟨by simpa using hlen, ?_, ?_⟩
          · intro hfo
            cases hfo
          · intro _
            exact ⟨hpr, rfl⟩
    | cons v rest =>
        rw [stepW_run_cons v rest c run pr i hrun] at h
        have hcf : c = false := by
          cases c
          · rfl
          · obtain ⟨-, hq⟩ := hclosed rfl
            cases hq
        subst hcf
        obtain ⟨⟨suf, hitems, hqsuf⟩, hrunrep⟩ := hopen rfl
        by_cases hv : v = -1
        · rw [if_pos hv] at h
          cases h
          cases suf with
          | nil =>
              simp only [List.nil_append] at hqsuf
              injection hqsuf with hv2 hrest
              subst hrest
              refine ⟨by simpa using hlen, ?_, ?_⟩
              · intro hfo
                cases hfo
              · intro _
                exact ⟨by simpa using hitems.symm, rfl⟩
          | cons x suf₂ =>
              exfalso
              injection hqsuf with hv2 hrest
              apply hs
              rw [hitems]
              refine List.mem_append.2 (Or.inr ?_)
              rw [← hv2, hv]
              exact List.mem_cons_self _ _
        · rw [if_neg hv] at h
          cases h
          cases suf with
          | nil =>
              exfalso
              simp only [List.nil_append] at hqsuf
              injection hqsuf with hv2 hrest
              exact hv hv2
          | cons x suf₂ =>
              injection hqsuf with hv2 hrest
              subst hv2
              subst hrest
              refine ⟨hlen, ?_, ?_⟩
              · intro _
                refine ⟨⟨suf₂, ?_, rfl⟩, hrunrep⟩
                rw [hitems]
                simp
              · intro hcc
                cases hcc
  · rw [stepW_not_running _ _ hrun] at h
    cases h

/-- Every state reachable from the initial state satisfies the invariant. -/
lemma good_reach (items : List ℤ) (W : ℕ) (hs : (-1 : ℤ) ∉ items) :
    ∀ s, Reach (initW items W) s → GoodState items W s := by
  intro s h
  induction h with
  | refl => exact good_init items W
  | tail hr hstep ih =>
      obtain ⟨i, hi⟩ := hstep
      exact good_step items W _ _ i hs ih hi

/-- Every step strictly decreases the termination measure. -/
lemma step_meas (s s' : WState) (i : ℕ) (h : stepW s i = some s') : meas s' < meas s := by
  obtain ⟨q, c, run, pr⟩ := s
  by_cases hrun : run[i]? = some true
  · cases q with
    | nil =>
        rw [stepW_run_nil c run pr i hrun] at h
        cases c
        · simp at h
        · rw [if_pos rfl] at h
          cases h
          have := count_true_set_false run i hrun
          simp only [meas, List.length_nil]
          omega
    | cons v rest =>
        rw [stepW_run_cons v rest c run pr i hrun] at h
        by_cases hv : v = -1
        · rw [if_pos hv] at h
          cases h
          have h1 := count_true_set_false run i hrun
          have h2 : (run.set i false).count true ≤ run.count true := le_of_lt h1
          simp only [meas, List.length_cons]
          omega
        · rw [if_neg hv] at h
          cases h
          simp only [meas, List.length_cons]
          omega
  · rw [stepW_not_running _ _ hrun] at h
    cases h

/-- As long as some writer is still running, a step is enabled: the
queue is non-empty while the channel is open (the sentinel is still
pending), and an empty queue implies a closed channel, which lets any
remaining writer exit. -/
lemma progress (items : List ℤ) (W : ℕ) (s : WState)
    (hg : GoodState items W s) (hnd : ¬ AllDone s) :
    ∃ i s', stepW s i = some s' := by
  obtain ⟨q, c, run, pr⟩ := s
  obtain ⟨hlen, hopen, hclosed⟩ := hg
  simp only at hlen hopen hclosed
  have htrue : ∃ i : ℕ, run[i]? = some true := by
    by_contra hc
    push_neg at hc
    apply hnd
    intro b hb
    obtain ⟨j, hj⟩ := List.mem_iff_getElem?.1 hb
    cases b
    · rfl
    · exact absurd hj (hc j)
  obtain ⟨i, hi⟩ := htrue
  cases q with
  | nil =>
      cases hcc : c
      · exfalso
        obtain ⟨⟨suf, -, hq⟩, -⟩ := hopen hcc
        simp at hq
      · subst hcc
        have hsome : (stepW { queue := [], closed := true, running := run, processed := pr } i).isSome = true := by
          rw [stepW_run_nil true run pr i hi, if_pos rfl]
          rfl
        obtain ⟨s', hs'⟩ := Option.isSome_iff_exists.1 hsome
        exact ⟨i, s', hs'⟩
  | cons v rest =>
      have hsome : (stepW { queue := v :: rest, closed := c, running := run, processed := pr } i).isSome = true := by
        rw [stepW_run_cons v rest c run pr i hi]
        by_cases hv : v = -1
        · rw [if_pos hv]
          rfl
        · rw [if_neg hv]
          rfl
      obtain ⟨s', hs'⟩ := Option.isSome_iff_exists.1 hsome
      exact ⟨i, s', hs'⟩

/-- From any invariant state, a state with all writers exited is
reachable (by induction on the termination measure). -/
lemma reach_alldone (items : List ℤ) (W : ℕ) (hs : (-1 : ℤ) ∉ items) :
    ∀ (n : ℕ) (s : WState), meas s ≤ n → GoodState items W s →
      ∃ t, Reach s t ∧ AllDone t := by
  intro n
  induction n with
  | zero =>
      intro s hm hg
      by_cases hd : AllDone s
      · exact ⟨s, Relation.ReflTransGen.refl, hd⟩
      · obtain ⟨i, s', hstep⟩ := progress items W s hg hd
        have := step_meas s s' i hstep
        omega
  | succ n ih =>
      intro s hm hg
      by_cases hd : AllDone s
      · exact ⟨s, Relation.ReflTransGen.refl, hd⟩
      · obtain ⟨i, s', hstep⟩ := progress items W s hg hd
        have hlt := step_meas s s' i hstep
        obtain ⟨t, hr, hdone⟩ := ih s' (by omega) (good_step items W s s' i hs hg hstep)
        exact ⟨t, Relation.ReflTransGen.head ⟨i, hstep⟩ hr, hdone⟩

/-- With at least one writer, all writers exited implies the channel was
closed (a writer only exits via the sentinel or a closed channel). -/
lemma alldone_closed (items : List ℤ) (W : ℕ) (s : WState)
    (hg : GoodState items W s) (hd : AllDone s) (hW : 1 ≤ W) : s.closed = true := by
  obtain ⟨hlen, hopen, hclosed⟩ := hg
  cases hc : s.closed
  · exfalso
    obtain ⟨-, hrun⟩ := hopen hc
    have hmem : (true : Bool) ∈ s.running := by
      rw [hrun]
      exact List.mem_replicate.2 ⟨by omega, rfl⟩
    exact absurd (hd true hmem) (by simp)
  · rfl

/-- The generated payloads never contain the sentinel. -/
lemma neg_one_not_mem_genPayloads (seeds : ℕ → ℕ) (n : ℕ) :
    (-1 : ℤ) ∉ genPayloads seeds n := by
  intro hmem
  rcases List.mem_map.1 hmem with ⟨i, -, hi⟩
  have h0 : 0 ≤ genPayload (seeds i) := by
    simp only [genPayload, MaxUint32]
    omega
  omega

/-- One writer's mark stream contains exactly one success mark per
consumed work item. -/
lemma successMarks_pool (jobs : List (ℤ × ℕ)) :
    successMarks (writerPoolMarks jobs) = jobs.length := by
  induction jobs with
  | nil => rfl
  | cons j rest ih =>
      simp [writerPoolMarks, successMarks, writerMarks, List.count_append,
        List.count_replicate, List.count_cons]
      exact ih

/-- C5 counterexample: a writer receiving the sentinel does not
re-publish it — it closes the channel instead: after the step the
sentinel is gone from the queue and the channel is marked closed (a
sibling observes termination through the close, not through a second
sentinel). -/
theorem sentinel_not_republished :
    stepW { queue := [(-1 : ℤ)], closed := false, running := [true, true], processed := [] } 0
      = some { queue := [], closed := true, running := [false, true], processed := [] } ∧
    (-1 : ℤ) ∉ WState.queue { queue := ([] : List ℤ), closed := true, running := [false, true], processed := ([] : List ℤ) } := by
  decide

/-- C5 (amended): on receiving the sentinel a writer closes the channel
(keeping the rest of the queue and the consumed log intact) rather than
re-publishing the sentinel; this close still guarantees that for every
`W ≥ 1` all `W` writers terminate even though only one sentinel was
enqueued: from every reachable state with a running writer a step is
enabled, every step strictly decreases the measure, and a state with
all writers exited is reachable. -/
theorem sentinel_close_terminates_all_writers
    (items : List ℤ) (W : ℕ) (hW : 1 ≤ W) (hs : (-1 : ℤ) ∉ items) :
    (∀ (q : List ℤ) (run : List Bool) (pr : List ℤ) (i : ℕ) (s' : WState),
      stepW { queue := -1 :: q, closed := false, running := run, processed := pr } i
        = some s' →
      s'.closed = true ∧ s'.queue = q ∧ s'.processed = pr) ∧
    (∀ s, Reach (initW items W) s → ¬ AllDone s → ∃ i s', stepW s i = some s') ∧
    (∀ (s s' : WState) (i : ℕ), stepW s i = some s' → meas s' < meas s) ∧
    (∃ t, Reach (initW items W) t ∧ AllDone t) := by
  refine ⟨?_, ?_, ?_, ?_⟩
  · intro q run pr i s' h
    by_cases hrun : run[i]? = some true
    · rw [stepW_run_cons (-1) q false run pr i hrun, if_pos rfl] at h
      cases h
      exact ⟨rfl, rfl, rfl⟩
    · rw [stepW_not_running _ _ hrun] at h
      cases h
  · intro s hr hnd
    exact progress items W s (good_reach items W hs s hr) hnd
  · intro s s' i h
    exact step_meas s s' i h
  · exact reach_alldone items W hs (meas (initW items W)) (initW items W) le_rfl
      (good_init items W)

/-- C5 witness: a concrete sentinel-consuming step strictly decreases
the measure, instantiating the theorem at `items = []`, `W = 2`. -/
theorem sentinel_close_terminates_all_writers_witness :
    meas { queue := [], closed := true, running := [false, true], processed := ([] : List ℤ) }
      < meas { queue := [(-1 : ℤ)], closed := false, running := [true, true], processed := [] } :=
  (sentinel_close_terminates_all_writers [] 2 (by decide) (by decide)).2.2.1 _ _ 0 (by decide)

/-- C2: for every writer count `W ≥ 1` and any way the consumed work
items are split among the writers (any interleaving whose combined
consumed items are exactly the generated payloads — which the channel
semantics guarantees: the second conjunct shows that in the queue model
every terminating run consumes exactly the generated payloads, each
exactly once), the total number of write-success marks equals
`numUpdates`, regardless of how many retry marks preceded each
success. -/
theorem writer_success_marks_eq_numUpdates
    (seeds : ℕ → ℕ) (numUpdates W : ℕ) (hW : 1 ≤ W)
    (pools : List (List (ℤ × ℕ)))
    (hperm : ((pools.map (fun jobs => jobs.map Prod.fst)).join).Perm
      (genPayloads seeds numUpdates)) :
    (pools.map (fun jobs => successMarks (writerPoolMarks jobs))).sum = numUpdates ∧
    (∀ t, Reach (initW (genPayloads seeds numUpdates) W) t → AllDone t →
      t.processed = genPayloads seeds numUpdates) := by
  constructor
  · have h1 : pools.map (fun jobs => successMarks (writerPoolMarks jobs))
        = pools.map (fun jobs => jobs.length) := by
      apply List.map_congr_left
      intro jobs _
      exact successMarks_pool jobs
    have h2 := hperm.length_eq
    rw [List.length_join] at h2
    have h3 : (genPayloads seeds numUpdates).length = numUpdates := by
      simp [genPayloads]
    have h4 : (pools.map (fun jobs => jobs.map Prod.fst)).map List.length
        = pools.map (fun jobs => jobs.length) := by
      rw [List.map_map]
      apply List.map_congr_left
      intro jobs _
      simp
    rw [h4, h3] at h2
    rw [h1]
    exact h2
  · intro t hr hd
    have hg := good_reach (genPayloads seeds numUpdates) W
      (neg_one_not_mem_genPayloads seeds numUpdates) t hr
    have hc := alldone_closed (genPayloads seeds numUpdates) W t hg hd hW
    exact (hg.2.2 hc).1

/-- C2 witness: one writer, one update whose UPDATE needed two retries. -/
theorem writer_success_marks_eq_numUpdates_witness :
    (([[((0 : ℤ), 2)]] : List (List (ℤ × ℕ))).map
      (fun jobs => successMarks (writerPoolMarks jobs))).sum = 1 :=
  (writer_success_marks_eq_numUpdates (fun _ => 0) 1 1 (by decide) [[((0 : ℤ), 2)]]
    (by decide)).1

/-- C9 witness at draw 0: the first payload is non-negative. -/
theorem payload_never_sentinel_witness : 0 ≤ genPayload 0 :=
  (payload_never_sentinel 0 [] [] [] 0
    { queue := [], closed := false, running := [], processed := [] }).1
